import Mathlib

/-!
Verification of the request-routing subsystem of `open-market-data`:
token-bucket rate limiter (`src/core/rate-limiter.ts`), TTL result cache
(`src/core/cache.ts`), and provider registry / priority-fallback router
(`src/core/router.ts`).

Modelling conventions:
* JS numbers are modelled as `ℚ` (timestamps in milliseconds, token counts).
* `Date.now()` is passed explicitly as a `now : ℚ` parameter.
* A JS `Map` is modelled as an insertion-ordered association list with the
  JS semantics: `set` on an existing key updates in place, on a fresh key
  appends; `delete` removes; iteration follows list order.
* `Array.prototype.sort` (a stable sort) is modelled by
  `List.insertionSort`, which is stable; the TS comparators involved are
  consistent total preorders, for which every stable sort produces the
  same output.
* Mutation is modelled by explicit state passing; each stateful operation
  returns its result together with the updated store.
-/

namespace OMD

set_option maxRecDepth 10000

/-! ### JS `Map` primitives -/

/-- JS `Map.prototype.set`: update in place if the key is present
(keeping its position), otherwise append at the end. -/
def jsMapSet {β : Type} (k : String) (v : β) (m : List (String × β)) :
    List (String × β) :=
  if m.any (fun p => p.1 == k) then
    m.map (fun p => if p.1 == k then (k, v) else p)
  else
    m ++ [(k, v)]

/-- JS `Map.prototype.delete`: remove the entry with the given key,
preserving the order of the others. -/
def jsMapDelete {β : Type} (k : String) (m : List (String × β)) :
    List (String × β) :=
  m.filter (fun p => p.1 != k)

/-! ### Rate limiter (`src/core/rate-limiter.ts`) -/

structure RateLimitConfig where
  maxRequests : ℚ
  windowMs : ℚ
deriving DecidableEq, Repr

structure Bucket where
  tokens : ℚ
  lastRefill : ℚ
  config : RateLimitConfig
deriving DecidableEq, Repr

/-- The module-level `buckets` map, keyed by source name. -/
abbrev BucketMap := List (String × Bucket)

/-- `getBucket(source, config)`: return the stored bucket, or lazily create
one with `tokens = config.maxRequests` and `lastRefill = Date.now()`.
Returns the bucket together with the (possibly extended) map. -/
def getBucket (source : String) (config : RateLimitConfig) (now : ℚ)
    (m : BucketMap) : Bucket × BucketMap :=
  match m.lookup source with
  | some b => (b, m)
  | none =>
    let b : Bucket := { tokens := config.maxRequests, lastRefill := now, config := config }
    (b, jsMapSet source b m)

/-- `refill(bucket)`: lazy continuous refill.
`elapsed = now - lastRefill`;
`refillAmount = (elapsed / windowMs) * maxRequests`;
`tokens = min(maxRequests, tokens + refillAmount)`; `lastRefill = now`. -/
def refill (b : Bucket) (now : ℚ) : Bucket :=
  let elapsed := now - b.lastRefill
  let refillAmount := elapsed / b.config.windowMs * b.config.maxRequests
  { tokens := min b.config.maxRequests (b.tokens + refillAmount),
    lastRefill := now,
    config := b.config }

/-- `canRequest(source, config)`: refill, then report `tokens >= 1`. -/
def canRequest (source : String) (config : RateLimitConfig) (now : ℚ)
    (m : BucketMap) : Bool × BucketMap :=
  let g := getBucket source config now m
  let b1 := refill g.1 now
  (decide (1 ≤ b1.tokens), jsMapSet source b1 g.2)

/-- `consumeToken(source, config)`: refill, then check-and-decrement. -/
def consumeToken (source : String) (config : RateLimitConfig) (now : ℚ)
    (m : BucketMap) : Bool × BucketMap :=
  let g := getBucket source config now m
  let b1 := refill g.1 now
  if b1.tokens < 1 then
    (false, jsMapSet source b1 g.2)
  else
    (true, jsMapSet source { b1 with tokens := b1.tokens - 1 } g.2)

/-- `getRemaining(source, config)`: refill, return `Math.floor(tokens)`. -/
def getRemaining (source : String) (config : RateLimitConfig) (now : ℚ)
    (m : BucketMap) : ℤ × BucketMap :=
  let g := getBucket source config now m
  let b1 := refill g.1 now
  (⌊b1.tokens⌋, jsMapSet source b1 g.2)

/-- `resetBucket(source)`: discard the stored bucket. -/
def resetBucket (source : String) (m : BucketMap) : BucketMap :=
  jsMapDelete source m

/-- Subtract one token from the bucket stored under `key`, leaving
everything else unchanged (used to state the check-and-decrement law). -/
def decTokens (key : String) (m : BucketMap) : BucketMap :=
  m.map (fun p => if p.1 == key then (p.1, { p.2 with tokens := p.2.tokens - 1 }) else p)

/-! ### Data categories and JS values -/

/-- `DataCategory` from `src/providers/types.ts` (the TS `'macro'` literal
is spelled `macroData` here because of the Lean keyword). -/
inductive DataCategory where
  | search | quote | financials | filing | insiders | macroData | crypto
  | history | optionsCat | earnings | dividends
deriving DecidableEq, Repr

/-- The string a category interpolates to in keys and error messages. -/
def categoryName : DataCategory → String
  | .search => "search"
  | .quote => "quote"
  | .financials => "financials"
  | .filing => "filing"
  | .insiders => "insiders"
  | .macroData => "macro"
  | .crypto => "crypto"
  | .history => "history"
  | .optionsCat => "options"
  | .earnings => "earnings"
  | .dividends => "dividends"

/-- A JS value (the payloads and argument values the subsystem handles). -/
inductive Value where
  | vNull
  | vBool (b : Bool)
  | vNum (q : ℚ)
  | vStr (s : String)
deriving DecidableEq, Repr

/-- JS truthiness of a value. -/
def truthy : Value → Bool
  | .vNull => false
  | .vBool b => b
  | .vNum q => q != 0
  | .vStr s => s != ""

def jsonEscapeChar (c : Char) : String :=
  if c = '"' then "\\\"" else if c = '\\' then "\\\\" else String.singleton c

/-- `JSON.stringify` on the values above. -/
def serialize : Value → String
  | .vNull => "null"
  | .vBool true => "true"
  | .vBool false => "false"
  | .vNum q => if q.den = 1 then toString q.num else toString q
  | .vStr s => "\"" ++ String.join (s.data.map jsonEscapeChar) ++ "\""

/-- A JS object: insertion-ordered entries with pairwise-distinct keys. -/
abbrev Obj := List (String × Value)

/-! ### Result cache (`src/core/cache.ts`) -/

/-- An `expiresAt` timestamp.  The TS `TTL` record lacks entries for four
of the eleven categories; for those `Date.now() + undefined` evaluates to
`NaN`, modelled by the `nan` constructor. -/
inductive Expiry where
  | ts (t : ℚ)
  | nan
deriving DecidableEq, Repr

/-- `entry.expiresAt <= now` (false when `expiresAt` is `NaN`). -/
def expiryLe (e : Expiry) (now : ℚ) : Bool :=
  match e with
  | .ts t => decide (t ≤ now)
  | .nan => false

/-- The eviction comparator `a.expiresAt - b.expiresAt`, as the relation
"sorts before or equal": comparator value `<= 0`, where a `NaN` comparator
value counts as `0` (JS sort treats `NaN` as equal). -/
def expiryLeB (a b : Expiry) : Bool :=
  match a, b with
  | .ts x, .ts y => decide (x ≤ y)
  | _, _ => true

structure CacheEntry where
  data : Value
  expiresAt : Expiry
deriving DecidableEq, Repr

/-- The module-level cache `store` map. -/
abbrev Store := List (String × CacheEntry)

/-- The `TTL` record: per-category TTL in ms.  `none` for the four
categories missing from the record (`history`, `options`, `earnings`,
`dividends`). -/
def TTL : DataCategory → Option ℚ
  | .search => some 300000
  | .quote => some 30000
  | .financials => some 3600000
  | .filing => some 3600000
  | .insiders => some 3600000
  | .macroData => some 3600000
  | .crypto => some 15000
  | _ => none

def MAX_ENTRIES : Nat := 500

/-- `makeKey(provider, category, args)`: args entries sorted by key,
rendered `key=JSON.stringify(value)`, joined by `&`, prefixed by
`provider:category:`. -/
def makeKey (provider : String) (category : DataCategory) (args : Obj) : String :=
  let sortedKeys := (args.map Prod.fst).insertionSort (fun a b => a ≤ b)
  let parts := sortedKeys.map (fun k =>
    k ++ "=" ++ serialize ((args.lookup k).getD Value.vNull))
  provider ++ ":" ++ categoryName category ++ ":" ++ String.intercalate "&" parts

/-- The second stage of `evictIfNeeded`, operating on the store left by
the expired-entry pass (`store1` in the source): if still over the limit,
sort ascending by `expiresAt` (stably, the comparator `a - b`) and delete
the surplus soonest-to-expire entries. -/
def evictSurplus (store1 : Store) : Store :=
  if store1.length ≤ MAX_ENTRIES then store1 else
  store1.filter (fun p =>
    !(((store1.insertionSort
          (fun a b => expiryLeB a.2.expiresAt b.2.expiresAt = true)).take
        (store1.length - MAX_ENTRIES)).any (fun q => q.1 == p.1)))

/-- `evictIfNeeded()`: once the store exceeds `MAX_ENTRIES`, first delete
already-expired entries, then delete any surplus soonest-to-expire
entries. -/
def evictIfNeeded (now : ℚ) (store : Store) : Store :=
  if store.length ≤ MAX_ENTRIES then store else
  evictSurplus (store.filter (fun p => !(expiryLe p.2.expiresAt now)))

/-- `cache.get(provider, category, args)`: lazy expiration — delete and
miss if `expiresAt <= now`.  Returns the value (if any) and the store. -/
def cacheGet (now : ℚ) (provider : String) (category : DataCategory)
    (args : Obj) (store : Store) : Option Value × Store :=
  let key := makeKey provider category args
  match store.lookup key with
  | none => (none, store)
  | some entry =>
    if expiryLe entry.expiresAt now then (none, jsMapDelete key store)
    else (some entry.data, store)

/-- `cache.set(provider, category, args, data)`:
store `expiresAt = now + TTL[category]`, then evict if needed. -/
def cacheSet (now : ℚ) (provider : String) (category : DataCategory)
    (args : Obj) (data : Value) (store : Store) : Store :=
  let key := makeKey provider category args
  let expiresAt : Expiry :=
    match TTL category with
    | some ttl => .ts (now + ttl)
    | none => .nan
  evictIfNeeded now (jsMapSet key { data := data, expiresAt := expiresAt } store)

/-- `cache.size()`. -/
def cacheSize (store : Store) : Nat := store.length

/-! ### Provider registry and router (`src/core/router.ts`) -/

structure ProviderResult where
  data : Value
  source : String
  cached : Bool
deriving DecidableEq, Repr

/-- A provider descriptor (`src/providers/types.ts`).  `isEnabled()` is
modelled as a fixed boolean; `execute` as a pure behaviour returning the
result or a thrown error message. -/
structure Provider where
  name : String
  requiresKey : Bool
  capabilities : List DataCategory
  priority : DataCategory → Option ℤ
  rateLimits : RateLimitConfig
  isEnabled : Bool
  execute : DataCategory → String → Obj → Except String ProviderResult

/-- `registerProvider(provider)`: a silent no-op when a provider of the
same name is already registered, otherwise append. -/
def registerProvider (p : Provider) (providers : List Provider) : List Provider :=
  if providers.any (fun q => q.name == p.name) then providers
  else providers ++ [p]

/-- The per-category priority, `priority[category] ?? 99`. -/
def prio (category : DataCategory) (p : Provider) : ℤ :=
  (p.priority category).getD 99

/-- The tie-break rank: `0` when `canRequest` currently holds, else `1`. -/
def headroom (now : ℚ) (buckets : BucketMap) (p : Provider) : Nat :=
  if (canRequest p.name p.rateLimits now buckets).1 then 0 else 1

/-- The sort comparator of `getProvidersForCategory`, as the relation
"comparator value `<= 0`": ascending priority, ties broken by rate-limit
headroom. -/
def candLe (now : ℚ) (buckets : BucketMap) (category : DataCategory)
    (a b : Provider) : Bool :=
  if prio category a = prio category b then
    decide (headroom now buckets a ≤ headroom now buckets b)
  else
    decide (prio category a < prio category b)

/-- `getProvidersForCategory(category)`: filter to capable, enabled,
not-disabled providers; stable-sort by the comparator above.  The
`disabledSources` set of the loaded config is passed in as `disabled`. -/
def getProvidersForCategory (now : ℚ) (buckets : BucketMap)
    (disabled : List String) (providers : List Provider)
    (category : DataCategory) : List Provider :=
  (((providers.filter (fun p => p.capabilities.contains category)).filter
      (fun p => p.isEnabled)).filter
      (fun p => !(disabled.contains p.name))).insertionSort
    (fun a b => candLe now buckets category a b = true)

structure RouteOptions where
  source : Option String
  noCache : Bool
deriving DecidableEq, Repr

/-- The errors `route` can throw, with the data their messages carry. -/
inductive RouteError where
  | sourceNotAvailable (source : String) (category : DataCategory)
  | noProviders (category : DataCategory)
  | allFailed (category : DataCategory) (action : String)
      (sources : List String) (lastMessage : Option String)
deriving DecidableEq, Repr

/-- The exact message strings built by `route`'s `throw new Error(...)`
sites (`lastError?.message` renders as `undefined` when absent). -/
def RouteError.message : RouteError → String
  | .sourceNotAvailable s c =>
    "Source \"" ++ s ++ "\" not available for category \"" ++ categoryName c ++ "\""
  | .noProviders c =>
    "No providers available for category \"" ++ categoryName c ++ "\""
  | .allFailed c a sources lastMessage =>
    "All providers failed for " ++ categoryName c ++ "/" ++ a ++
      " (tried: " ++ String.intercalate ", " sources ++ "): " ++
      lastMessage.getD "undefined"

/-- The object literal `{ action, ...args }` used as the cache key:
`action` first, spread entries following JS duplicate-key semantics. -/
def routeCacheKey (action : String) (args : Obj) : Obj :=
  args.foldl (fun acc kv => jsMapSet kv.1 kv.2 acc) [("action", Value.vStr action)]

/-- The cache-check loop `for (const p of providers)`: first truthy cache
hit over the *whole* provider list, threading the store through the lazy
expirations performed by `cache.get`. -/
def firstCacheHit (now : ℚ) (category : DataCategory) (cacheKey : Obj) :
    List Provider → Store → Option (String × Value) × Store
  | [], store => (none, store)
  | p :: ps, store =>
    match cacheGet now p.name category cacheKey store with
    | (some v, store1) =>
      if truthy v then (some (p.name, v), store1)
      else firstCacheHit now category cacheKey ps store1
    | (none, store1) => firstCacheHit now category cacheKey ps store1

/-- The sequential fallback loop of `route`: returns the names invoked (in
order), the recorded error messages (in order), and — on first success —
the result together with the store updated by the cache write. -/
def tryProviders (now : ℚ) (noCache : Bool) (category : DataCategory)
    (action : String) (args : Obj) :
    List Provider → Store → List String × List String × Option (ProviderResult × Store)
  | [], _ => ([], [], none)
  | p :: ps, store =>
    match p.execute category action args with
    | .ok r =>
      let store1 :=
        if noCache then store
        else cacheSet now p.name category (routeCacheKey action args) r.data store
      ([p.name], [], some (r, store1))
    | .error e =>
      let rest := tryProviders now noCache category action args ps store
      (p.name :: rest.1, e :: rest.2.1, rest.2.2)

/-- Wrap the fallback loop's outcome the way `route` does: first success
is returned as-is; total failure raises the aggregate error naming every
candidate source and the last recorded message. -/
def finishRoute (now : ℚ) (noCache : Bool) (category : DataCategory)
    (action : String) (args : Obj) (candidates : List Provider)
    (store : Store) : Except RouteError (ProviderResult × Store × List String) :=
  let t := tryProviders now noCache category action args candidates store
  match t.2.2 with
  | some (r, st) => .ok (r, st, t.1)
  | none =>
    .error (.allFailed category action (candidates.map (fun p => p.name)) t.2.1.getLast?)

/-- `route(category, action, args, options)`.  Returns the result, the
updated cache store, and the list of providers whose `execute` ran. -/
def route (now : ℚ) (providers : List Provider) (disabled : List String)
    (buckets : BucketMap) (category : DataCategory) (action : String)
    (args : Obj) (options : RouteOptions) (store : Store) :
    Except RouteError (ProviderResult × Store × List String) :=
  let cacheKey := routeCacheKey action args
  let checked : Option (String × Value) × Store :=
    if options.noCache then (none, store)
    else
      match options.source with
      | some s =>
        let g := cacheGet now s category cacheKey store
        match g.1 with
        | some v => if truthy v then (some (s, v), g.2) else (none, g.2)
        | none => (none, g.2)
      | none => firstCacheHit now category cacheKey providers store
  match checked.1 with
  | some hit => .ok ({ data := hit.2, source := hit.1, cached := true }, checked.2, [])
  | none =>
    let candidates0 := getProvidersForCategory now buckets disabled providers category
    match options.source with
    | some s =>
      let candidates := candidates0.filter (fun p => p.name == s)
      if candidates.isEmpty then .error (.sourceNotAvailable s category)
      else finishRoute now options.noCache category action args candidates checked.2
    | none =>
      if candidates0.isEmpty then .error (.noProviders category)
      else finishRoute now options.noCache category action args candidates0 checked.2

/-! ### Concrete scenario inputs used by the testable properties -/

/-- The `{max: 3, window: 1000ms}` config of the spec's bucket scenarios. -/
def bucketCfg3 : RateLimitConfig := { maxRequests := 3, windowMs := 1000 }

/-- A second, different config (used to show the config argument of a
later call is ignored once a bucket exists). -/
def bucketCfgB : RateLimitConfig := { maxRequests := 100, windowMs := 50 }

/-- Bucket map after one `consumeToken("k", {3,1000})` at `t = 0`. -/
def oneConsumed : BucketMap := (consumeToken "k" bucketCfg3 0 []).2

/-- After two consumes at `t = 0`. -/
def twoConsumed : BucketMap := (consumeToken "k" bucketCfg3 0 oneConsumed).2

/-- After three consumes at `t = 0`: the bucket is exhausted. -/
def exhausted3 : BucketMap := (consumeToken "k" bucketCfg3 0 twoConsumed).2

/-- A bucket map holding an existing bucket for `"k"`. -/
def c9Map : BucketMap := [("k", { tokens := 2, lastRefill := 0, config := bucketCfg3 })]

/-- A provider capable of `quote` but disabled (`isEnabled()` false, e.g.
an unconfigured key). -/
def pDisabled : Provider :=
  { name := "alpha", requiresKey := true, capabilities := [.quote],
    priority := fun c => if c = .quote then some 1 else none,
    rateLimits := { maxRequests := 60, windowMs := 60000 },
    isEnabled := false, execute := fun _ _ _ => .error "disabled" }

/-- A provider registered with no capability for `quote` at all. -/
def pNoCap : Provider :=
  { name := "x", requiresKey := false, capabilities := [],
    priority := fun _ => none,
    rateLimits := { maxRequests := 60, windowMs := 60000 },
    isEnabled := true, execute := fun _ _ _ => .error "unsupported" }

/-- An enabled provider capable of `quote`. -/
def pCap : Provider :=
  { name := "y", requiresKey := false, capabilities := [.quote],
    priority := fun c => if c = .quote then some 1 else none,
    rateLimits := { maxRequests := 60, windowMs := 60000 },
    isEnabled := true, execute := fun _ _ _ => .ok { data := .vNum 7, source := "y", cached := false } }

/-- A cache store holding an unexpired entry for the `quote` request
`{action: "get", s: "A"}` under the capability-less provider `"x"`. -/
def c2Store : Store :=
  cacheSet 0 "x" .quote (routeCacheKey "get" [("s", .vStr "A")]) (.vStr "v") []

/-- Priority-1 provider for `quote` whose `execute` always throws. -/
def pFail : Provider :=
  { name := "a", requiresKey := false, capabilities := [.quote],
    priority := fun c => if c = .quote then some 1 else none,
    rateLimits := { maxRequests := 60, windowMs := 60000 },
    isEnabled := true, execute := fun _ _ _ => .error "fail-1" }

/-- The result returned by the succeeding fallback provider. -/
def okResult : ProviderResult := { data := .vNum 99, source := "b", cached := false }

/-- Priority-2 provider for `quote` whose `execute` always succeeds. -/
def pOk : Provider :=
  { name := "b", requiresKey := false, capabilities := [.quote],
    priority := fun c => if c = .quote then some 2 else none,
    rateLimits := { maxRequests := 60, windowMs := 60000 },
    isEnabled := true, execute := fun _ _ _ => .ok okResult }

/-- Priority-2 provider for `quote` whose `execute` always throws. -/
def pFail2 : Provider :=
  { name := "c", requiresKey := false, capabilities := [.quote],
    priority := fun c => if c = .quote then some 2 else none,
    rateLimits := { maxRequests := 60, windowMs := 60000 },
    isEnabled := true, execute := fun _ _ _ => .error "fail-2" }

/-- The error message each always-failing provider records. -/
def emW : Provider → String := fun q => if q.name = "a" then "fail-1" else "fail-2"

/-- The falsy result `{data: false}` of the C10 scenario provider. -/
def falsyResult : ProviderResult := { data := .vBool false, source := "f", cached := false }

/-- A provider for `quote` whose `execute` succeeds with falsy data. -/
def pFalsy : Provider :=
  { name := "f", requiresKey := false, capabilities := [.quote],
    priority := fun c => if c = .quote then some 1 else none,
    rateLimits := { maxRequests := 60, windowMs := 60000 },
    isEnabled := true, execute := fun _ _ _ => .ok falsyResult }

/-- The store after the first `route` call of the C10 scenario: an
unexpired entry with falsy data cached under `"f"`. -/
def falsyStore : Store :=
  cacheSet 0 "f" .quote (routeCacheKey "get" []) (.vBool false) []

/-- A sequence of `cache.set` calls under provider `"p"` and category
`quote`: the k-th call stores `data` under `args k` at time `t k`. -/
def cacheSetSeq (t : ℕ → ℚ) (args : ℕ → Obj) (data : Value) : ℕ → Store
  | 0 => []
  | k+1 => cacheSet (t k) "p" .quote (args k) data (cacheSetSeq t args data k)

/-- The cache key of the k-th insertion of `cacheSetSeq`. -/
def seqKey (args : ℕ → Obj) (i : ℕ) : String := makeKey "p" .quote (args i)

/-- The stored entry of the k-th insertion (quote TTL is 30000 ms). -/
def seqEntry (t : ℕ → ℚ) (args : ℕ → Obj) (data : Value) (i : ℕ) :
    String × CacheEntry :=
  (seqKey args i, { data := data, expiresAt := .ts (t i + 30000) })

/-- The store holding the entries of insertions `lo, lo+1, …, lo+n-1`. -/
def expectedStore (t : ℕ → ℚ) (args : ℕ → Obj) (data : Value) (lo n : ℕ) : Store :=
  (List.range' lo n).map (seqEntry t args data)

/-- The argument family of the C6 witness: `{s: "aa…a"}` with `i`
repetitions — all 501 keys pairwise distinct (their lengths differ). -/
def c6Args (i : ℕ) : Obj := [("s", .vStr (String.mk (List.replicate i 'a')))]

/-- Well-formedness of a stored bucket at clock value `now`: tokens within
`[0, maxRequests]` of the owning config, refill timestamp not in the
future, and a sane owning config (positive window, non-negative cap —
every provider's `rateLimits` in the repository satisfies this). -/
def BucketWf (now : ℚ) (b : Bucket) : Prop :=
  0 ≤ b.tokens ∧ b.tokens ≤ b.config.maxRequests ∧ b.lastRefill ≤ now
  ∧ 0 < b.config.windowMs ∧ 0 ≤ b.config.maxRequests

/-- Every bucket stored in the map is well-formed at `now`. -/
def StateWf (now : ℚ) (m : BucketMap) : Prop := ∀ kb ∈ m, BucketWf now kb.2

/-! ## Theorems -/

section RateLimiterTheorems

/-- Updating an existing key and then decrementing its tokens is the same
as updating with the decremented bucket directly. -/
theorem decTokens_jsMapSet (k : String) (b : Bucket) (m : BucketMap) :
    decTokens k (jsMapSet k b m) =
      jsMapSet k { b with tokens := b.tokens - 1 } m := by
  unfold decTokens jsMapSet
  by_cases h : m.any (fun p => p.1 == k)
  · simp only [h, if_true, List.map_map]
    apply List.map_congr_left
    intro p _
    by_cases hp : p.1 == k
    · simp [hp, Function.comp]
    · simp [hp, Function.comp]
  · simp only [h, if_false, Bool.false_eq_true, List.map_append]
    have hm : m.map
        (fun p => if p.1 == k then (p.1, { p.2 with tokens := p.2.tokens - 1 }) else p) = m := by
      have hall : ∀ p ∈ m, (p.1 == k) = false := by
        intro p hp
        by_contra hc
        exact h (List.any_eq_true.mpr ⟨p, hp, by simpa using hc⟩)
      calc m.map (fun p => if p.1 == k then (p.1, { p.2 with tokens := p.2.tokens - 1 }) else p)
        = m.map id := List.map_congr_left (fun p hp => by simp [hall p hp])
        _ = m := List.map_id m
    rw [hm]
    simp

/-- C3 (`numerical`): every bucket access refills with
`tokens = min(maxRequests, tokens + elapsed/windowMs * maxRequests)` and
`lastRefill = now`, the fractional token value is kept in stored state,
and only `getRemaining` floors the returned value: after exhausting a
`{max: 3, window: 1000}` bucket and advancing 500 ms, `getRemaining`
returns `1` while the stored token count is `3/2`. -/
theorem refill_continuous_and_fractional :
    (∀ (b : Bucket) (now : ℚ),
       refill b now =
         { tokens := min b.config.maxRequests
             (b.tokens + (now - b.lastRefill) / b.config.windowMs * b.config.maxRequests),
           lastRefill := now, config := b.config })
    ∧ (getRemaining "k" bucketCfg3 500 exhausted3).1 = 1
    ∧ ((getRemaining "k" bucketCfg3 500 exhausted3).2.lookup "k").map Bucket.tokens
        = some (3/2) := by
  refine ⟨fun b now => rfl, ?_, ?_⟩
  · with_unfolding_all rfl
  · with_unfolding_all rfl

/-- C4 (`functional_correctness`): `consumeToken` refills, then returns
`false` leaving only the refill applied when fewer than one token is
available, and otherwise subtracts exactly one token and returns `true`
(`canRequest`'s value and post-state are exactly the refilled view); a
fresh `{max: 3, window: 1000}` bucket serves three consumes, fails the
fourth, and `canRequest` is false right after exhaustion. -/
theorem consumeToken_check_and_decrement :
    (∀ (key : String) (config : RateLimitConfig) (now : ℚ) (m : BucketMap),
       consumeToken key config now m =
         (if (canRequest key config now m).1 then
            (true, decTokens key (canRequest key config now m).2)
          else (false, (canRequest key config now m).2)))
    ∧ (consumeToken "k" bucketCfg3 0 []).1 = true
    ∧ (consumeToken "k" bucketCfg3 0 oneConsumed).1 = true
    ∧ (consumeToken "k" bucketCfg3 0 twoConsumed).1 = true
    ∧ (consumeToken "k" bucketCfg3 0 exhausted3).1 = false
    ∧ (canRequest "k" bucketCfg3 0 exhausted3).1 = false := by
  refine ⟨?_, ?_, ?_, ?_, ?_, ?_⟩
  · intro key config now m
    unfold consumeToken canRequest
    by_cases h : (refill (getBucket key config now m).1 now).tokens < 1
    · simp [h, not_le.mpr h]
    · simp [h, not_lt.mp h, decTokens_jsMapSet]
  · with_unfolding_all rfl
  · with_unfolding_all rfl
  · with_unfolding_all rfl
  · with_unfolding_all rfl
  · with_unfolding_all rfl

/-- C9 (`functional_correctness`): once a bucket exists for a key, the
config argument passed to `canRequest`, `consumeToken` and `getRemaining`
is ignored entirely — refill and cap use the config stored in the bucket
at creation. -/
theorem config_frozen_at_creation :
    ∀ (key : String) (c1 c2 : RateLimitConfig) (now : ℚ) (m : BucketMap),
      (m.lookup key).isSome →
      canRequest key c1 now m = canRequest key c2 now m
      ∧ consumeToken key c1 now m = consumeToken key c2 now m
      ∧ getRemaining key c1 now m = getRemaining key c2 now m := by
  intro key c1 c2 now m h
  obtain ⟨b, hb⟩ := Option.isSome_iff_exists.mp h
  have hg : ∀ c : RateLimitConfig, getBucket key c now m = (b, m) := by
    intro c; unfold getBucket; rw [hb]
  refine ⟨?_, ?_, ?_⟩
  · unfold canRequest; rw [hg c1, hg c2]
  · unfold consumeToken; rw [hg c1, hg c2]
  · unfold getRemaining; rw [hg c1, hg c2]

/-- Witness for C9 at a concrete existing bucket and two different
configs. -/
theorem config_frozen_at_creation_witness :
    canRequest "k" bucketCfg3 5 c9Map = canRequest "k" bucketCfgB 5 c9Map
    ∧ consumeToken "k" bucketCfg3 5 c9Map = consumeToken "k" bucketCfgB 5 c9Map
    ∧ getRemaining "k" bucketCfg3 5 c9Map = getRemaining "k" bucketCfgB 5 c9Map :=
  config_frozen_at_creation "k" bucketCfg3 bucketCfgB 5 c9Map (by rfl)

theorem BucketWf.mono_of_le {t now : ℚ} {b : Bucket} (h : BucketWf t b) (ht : t ≤ now) :
    BucketWf now b :=
  ⟨h.1, h.2.1, h.2.2.1.trans ht, h.2.2.2.1, h.2.2.2.2⟩

theorem StateWf.mono_clock {t now : ℚ} {m : BucketMap} (h : StateWf t m) (ht : t ≤ now) :
    StateWf now m :=
  fun kb hm => (h kb hm).mono_of_le ht

theorem mem_jsMapSet {β : Type} {k : String} {v : β} {m : List (String × β)}
    {x : String × β} (h : x ∈ jsMapSet k v m) : x = (k, v) ∨ x ∈ m := by
  unfold jsMapSet at h
  by_cases hc : m.any (fun p => p.1 == k)
  · rw [if_pos hc] at h
    obtain ⟨p, hp, hpx⟩ := List.mem_map.mp h
    by_cases hpk : p.1 == k
    · rw [if_pos hpk] at hpx; exact Or.inl hpx.symm
    · rw [if_neg hpk] at hpx; exact Or.inr (hpx ▸ hp)
  · rw [if_neg hc] at h
    rcases List.mem_append.mp h with h1 | h1
    · exact Or.inr h1
    · exact Or.inl (List.mem_singleton.mp h1)

theorem StateWf.jsMapSet {now : ℚ} {m : BucketMap} {k : String} {b : Bucket}
    (hm : StateWf now m) (hb : BucketWf now b) : StateWf now (OMD.jsMapSet k b m) := by
  intro kb hkb
  rcases mem_jsMapSet hkb with h | h
  · rw [h]; exact hb
  · exact hm kb h

theorem refill_wf {now : ℚ} {b : Bucket} (h : BucketWf now b) :
    BucketWf now (refill b now) := by
  obtain ⟨h0, hmax, hlast, hw, hm⟩ := h
  have hamt : 0 ≤ (now - b.lastRefill) / b.config.windowMs * b.config.maxRequests :=
    mul_nonneg (div_nonneg (sub_nonneg.mpr hlast) hw.le) hm
  refine ⟨?_, ?_, le_refl _, hw, hm⟩
  · exact le_min hm (add_nonneg h0 hamt)
  · exact min_le_left _ _

theorem getBucket_wf {key : String} {config : RateLimitConfig} {now : ℚ}
    {m : BucketMap} (hm : StateWf now m) (hw : 0 < config.windowMs)
    (hmax : 0 ≤ config.maxRequests) :
    BucketWf now (getBucket key config now m).1
    ∧ StateWf now (getBucket key config now m).2 := by
  unfold getBucket
  cases hl : m.lookup key with
  | some b =>
    have hb : (key, b) ∈ m := by
      obtain ⟨l₁, l₂, hsplit, -⟩ := List.lookup_eq_some_iff.mp hl
      rw [hsplit]
      exact List.mem_append.mpr (Or.inr (List.mem_cons_self _ _))
    exact ⟨hm (key, b) hb, hm⟩
  | none =>
    refine ⟨⟨hmax, le_refl _, le_refl _, hw, hmax⟩, ?_⟩
    exact hm.jsMapSet ⟨hmax, le_refl _, le_refl _, hw, hmax⟩

/-- C5 (`invariants`): with a non-decreasing clock and a sane config,
every rate-limiter operation — lazy bucket creation, `canRequest`,
`consumeToken`, `getRemaining`, `resetBucket` — preserves
`0 ≤ tokens ≤ maxRequests` (against the bucket's owning config) for all
stored buckets, starting from creation with `tokens = maxRequests`. -/
theorem bucket_invariant_preserved :
    ∀ (key : String) (config : RateLimitConfig) (t now : ℚ) (m : BucketMap),
      StateWf t m → t ≤ now → 0 < config.windowMs → 0 ≤ config.maxRequests →
      StateWf now (getBucket key config now m).2
      ∧ StateWf now (canRequest key config now m).2
      ∧ StateWf now (consumeToken key config now m).2
      ∧ StateWf now (getRemaining key config now m).2
      ∧ StateWf now (resetBucket key m) := by
  intro key config t now m hm ht hw hmax
  have hm' : StateWf now m := hm.mono_clock ht
  have hgw : BucketWf now (getBucket key config now m).1
      ∧ StateWf now (getBucket key config now m).2 := getBucket_wf hm' hw hmax
  obtain ⟨hb, hst⟩ := hgw
  have hb1 : BucketWf now (refill (getBucket key config now m).1 now) := refill_wf hb
  refine ⟨hst, hst.jsMapSet hb1, ?_, hst.jsMapSet hb1, ?_⟩
  · unfold consumeToken
    by_cases hlt : (refill (getBucket key config now m).1 now).tokens < 1
    · rw [if_pos hlt]
      exact hst.jsMapSet hb1
    · rw [if_neg hlt]
      have h1 : (1 : ℚ) ≤ (refill (getBucket key config now m).1 now).tokens :=
        not_lt.mp hlt
      have h2 := hb1.2.1
      refine hst.jsMapSet ⟨?_, ?_, hb1.2.2.1, hb1.2.2.2.1, hb1.2.2.2.2⟩
      · show (0:ℚ) ≤ (refill (getBucket key config now m).1 now).tokens - 1
        linarith
      · show (refill (getBucket key config now m).1 now).tokens - 1 ≤
          (refill (getBucket key config now m).1 now).config.maxRequests
        linarith
  · intro kb hkb
    exact hm' kb (List.mem_of_mem_filter hkb)

/-- Witness for C5 at a concrete key, config, clock pair and the empty
bucket map. -/
theorem bucket_invariant_preserved_witness :
    StateWf 5 (getBucket "k" bucketCfg3 5 []).2
    ∧ StateWf 5 (canRequest "k" bucketCfg3 5 []).2
    ∧ StateWf 5 (consumeToken "k" bucketCfg3 5 []).2
    ∧ StateWf 5 (getRemaining "k" bucketCfg3 5 []).2
    ∧ StateWf 5 (resetBucket "k" []) :=
  bucket_invariant_preserved "k" bucketCfg3 0 5 []
    (fun kb h => absurd h (List.not_mem_nil kb)) (by norm_num)
    (by norm_num [bucketCfg3]) (by norm_num [bucketCfg3])

end RateLimiterTheorems

section CacheTheorems

/-- Association-list lookup is invariant under permutation when the keys
are pairwise distinct. -/
theorem lookup_eq_of_perm {β : Type} {l1 l2 : List (String × β)}
    (h : l1.Perm l2) (nd : (l1.map Prod.fst).Nodup) (k : String) :
    l1.lookup k = l2.lookup k := by
  induction h with
  | nil => rfl
  | cons x h ih =>
    obtain ⟨a, b⟩ := x
    simp only [List.map_cons, List.nodup_cons] at nd
    by_cases hbeq : k == a
    · simp [List.lookup_cons, hbeq]
    · simp [List.lookup_cons, hbeq, ih nd.2]
  | swap x y l =>
    obtain ⟨a, b⟩ := x
    obtain ⟨c, d⟩ := y
    simp only [List.map_cons, List.nodup_cons, List.mem_cons] at nd
    have hac : ¬(c = a) := fun hca => nd.1 (Or.inl hca)
    by_cases h1 : k == c
    · have h2 : ¬(k == a) := by
        intro h2
        exact hac ((eq_of_beq h1).symm.trans (eq_of_beq h2))
      simp [List.lookup_cons, h1, h2]
    · by_cases h2 : k == a
      · simp [List.lookup_cons, h1, h2]
      · simp [List.lookup_cons, h1, h2]
  | trans h1 h2 ih1 ih2 =>
    have nd2 := ((h1.map Prod.fst).nodup_iff).mp nd
    exact (ih1 nd).trans (ih2 nd2)

/-- Two permuted key lists have the same sorted order. -/
theorem insertionSort_keys_perm_eq {k1 k2 : List String} (h : k1.Perm k2) :
    k1.insertionSort (fun a b => a ≤ b) = k2.insertionSort (fun a b => a ≤ b) :=
  List.eq_of_perm_of_sorted
    ((List.perm_insertionSort _ k1).trans (h.trans (List.perm_insertionSort _ k2).symm))
    (List.sorted_insertionSort _ k1) (List.sorted_insertionSort _ k2)

/-- C7 (`algebraic_relational`): the cache key is invariant under
permutation of the argument object's entries (keys are sorted and values
looked up by key), so `set(p, cat, {a:1,b:2}, "v")` followed by
`get(p, cat, {b:2,a:1})` before expiry returns `"v"`. -/
theorem cache_key_order_independent :
    (∀ (provider : String) (category : DataCategory) (args1 args2 : Obj),
       args1.Perm args2 → (args1.map Prod.fst).Nodup →
       makeKey provider category args1 = makeKey provider category args2)
    ∧ (cacheGet 0 "p" .quote [("b", .vNum 2), ("a", .vNum 1)]
        (cacheSet 0 "p" .quote [("a", .vNum 1), ("b", .vNum 2)] (.vStr "v") [])).1
        = some (.vStr "v") := by
  constructor
  · intro provider category args1 args2 hperm hnd
    unfold makeKey
    have hkeys : (args1.map Prod.fst).insertionSort (fun a b => a ≤ b)
        = (args2.map Prod.fst).insertionSort (fun a b => a ≤ b) :=
      insertionSort_keys_perm_eq (hperm.map Prod.fst)
    have hmap : ∀ k : String,
        ((args1.lookup k).getD Value.vNull) = ((args2.lookup k).getD Value.vNull) :=
      fun k => by rw [lookup_eq_of_perm hperm hnd k]
    rw [hkeys]
    simp only [hmap]
  · with_unfolding_all rfl

/-- Witness for C7: the two orderings of `{a:1, b:2}` produce the same
cache key. -/
theorem cache_key_order_independent_witness :
    makeKey "p" DataCategory.quote [("a", .vNum 1), ("b", .vNum 2)]
      = makeKey "p" DataCategory.quote [("b", .vNum 2), ("a", .vNum 1)] :=
  cache_key_order_independent.1 "p" DataCategory.quote
    [("a", .vNum 1), ("b", .vNum 2)] [("b", .vNum 2), ("a", .vNum 1)]
    (by decide) (by decide)

theorem countP_not_aux {α : Type} (p : α → Bool) (l : List α) :
    l.countP p + l.countP (fun a => !(p a)) = l.length := by
  induction l with
  | nil => rfl
  | cons a l ih =>
    cases h : p a <;> simp [List.countP_cons, h] <;> omega

/-- Removing, from `store1`, the keys of a sub-multiset of
`store1.length - MAX_ENTRIES` of its entries leaves at most
`MAX_ENTRIES` entries. -/
theorem filter_removal_le {store1 toRemove : Store}
    (hsub : List.Subperm toRemove store1)
    (hlenTR : toRemove.length = store1.length - MAX_ENTRIES)
    (h2 : ¬ store1.length ≤ MAX_ENTRIES) :
    (store1.filter (fun p => !(toRemove.any (fun q => q.1 == p.1)))).length
      ≤ MAX_ENTRIES := by
  have hall : ∀ x ∈ toRemove, (toRemove.any (fun q => q.1 == x.1)) = true := by
    intro x hx
    exact List.any_eq_true.mpr ⟨x, hx, by simp⟩
  have hcount1 : toRemove.length
      ≤ store1.countP (fun p => toRemove.any (fun q => q.1 == p.1)) := by
    calc toRemove.length
        = toRemove.countP (fun p => toRemove.any (fun q => q.1 == p.1)) :=
          (List.countP_eq_length.mpr hall).symm
      _ ≤ _ := hsub.countP_le _
  have hsum := countP_not_aux (fun p => toRemove.any (fun q => q.1 == p.1)) store1
  have hres : (store1.filter
        (fun p => !(toRemove.any (fun q => q.1 == p.1)))).length
      = store1.countP (fun p => !(toRemove.any (fun q => q.1 == p.1))) :=
    (List.countP_eq_length_filter _ _).symm
  rw [hres]
  omega

/-- The second eviction stage never leaves more than `MAX_ENTRIES`. -/
theorem evictSurplus_length_le (store1 : Store) :
    (evictSurplus store1).length ≤ MAX_ENTRIES := by
  unfold evictSurplus
  by_cases h2 : store1.length ≤ MAX_ENTRIES
  · rw [if_pos h2]; exact h2
  · rw [if_neg h2]
    exact filter_removal_le
      (((List.take_sublist _ _).subperm).trans
        (List.perm_insertionSort _ _).subperm)
      (by
        have hp := (List.perm_insertionSort
          (fun a b => expiryLeB a.2.expiresAt b.2.expiresAt = true) store1).length_eq
        rw [List.length_take]
        omega)
      h2

/-- The eviction pass never leaves more than `MAX_ENTRIES` entries. -/
theorem evictIfNeeded_length_le (now : ℚ) (store : Store) :
    (evictIfNeeded now store).length ≤ MAX_ENTRIES := by
  unfold evictIfNeeded
  by_cases h1 : store.length ≤ MAX_ENTRIES
  · rw [if_pos h1]; exact h1
  · rw [if_neg h1]
    exact evictSurplus_length_le _

/-- Setting a key absent from the map appends the entry. -/
theorem jsMapSet_fresh {β : Type} {k : String} {v : β} {m : List (String × β)}
    (h : ∀ p ∈ m, p.1 ≠ k) : jsMapSet k v m = m ++ [(k, v)] := by
  unfold jsMapSet
  have ha : m.any (fun p => p.1 == k) = false := by
    rw [List.any_eq_false]
    intro p hp
    simpa using h p hp
  rw [ha]
  simp

/-- `cache.set` for the `quote` category (TTL 30000 ms), unfolded. -/
theorem cacheSet_quote_eq (now : ℚ) (provider : String) (args : Obj)
    (data : Value) (store : Store) :
    cacheSet now provider .quote args data store
      = evictIfNeeded now (jsMapSet (makeKey provider .quote args)
          { data := data, expiresAt := .ts (now + 30000) } store) := rfl

theorem expectedStore_length (t : ℕ → ℚ) (args : ℕ → Obj) (data : Value)
    (lo n : ℕ) : (expectedStore t args data lo n).length = n := by
  unfold expectedStore
  rw [List.length_map, List.length_range']

theorem mem_expectedStore {t : ℕ → ℚ} {args : ℕ → Obj} {data : Value}
    {lo n : ℕ} {p : String × CacheEntry} :
    p ∈ expectedStore t args data lo n
      ↔ ∃ i, (lo ≤ i ∧ i < lo + n) ∧ p = seqEntry t args data i := by
  unfold expectedStore
  rw [List.mem_map]
  constructor
  · rintro ⟨i, hi, rfl⟩
    exact ⟨i, List.mem_range'_1.mp hi, rfl⟩
  · rintro ⟨i, hi, rfl⟩
    exact ⟨i, List.mem_range'_1.mpr hi, rfl⟩

/-- No key of a block of entries equals the key of an insertion outside
the block (keys are injective on `0..500`). -/
theorem expectedStore_key_ne {args : ℕ → Obj}
    (hinj : ∀ i j, i ≤ 500 → j ≤ 500 → seqKey args i = seqKey args j → i = j)
    {t : ℕ → ℚ} {data : Value} {lo n k : ℕ}
    (hn : lo + n ≤ 501) (hk : k ≤ 500) (hout : k < lo ∨ lo + n ≤ k) :
    ∀ p ∈ expectedStore t args data lo n, p.1 ≠ seqKey args k := by
  intro p hp
  obtain ⟨i, hi, rfl⟩ := mem_expectedStore.mp hp
  show seqKey args i ≠ seqKey args k
  intro he
  have : i = k := hinj i k (by omega) hk he
  omega

theorem expectedStore_concat (t : ℕ → ℚ) (args : ℕ → Obj) (data : Value)
    (lo n q : ℕ) (hq : q = lo + n) :
    expectedStore t args data lo n ++ [seqEntry t args data q]
      = expectedStore t args data lo (n + 1) := by
  subst hq
  unfold expectedStore
  rw [List.range'_1_concat, List.map_append]
  rfl

theorem expectedStore_cons (t : ℕ → ℚ) (args : ℕ → Obj) (data : Value)
    (lo n : ℕ) :
    expectedStore t args data lo (n + 1)
      = seqEntry t args data lo :: expectedStore t args data (lo + 1) n := by
  unfold expectedStore
  rw [List.range'_succ]
  rfl

theorem evictIfNeeded_no_evict {now : ℚ} {store : Store}
    (h : store.length ≤ MAX_ENTRIES) : evictIfNeeded now store = store := by
  unfold evictIfNeeded
  rw [if_pos h]

/-- The first `k ≤ 500` insertions simply accumulate in order: no
eviction fires. -/
theorem cacheSetSeq_shape {t : ℕ → ℚ} {args : ℕ → Obj} {data : Value}
    (hinj : ∀ i j, i ≤ 500 → j ≤ 500 → seqKey args i = seqKey args j → i = j) :
    ∀ k, k ≤ MAX_ENTRIES →
      cacheSetSeq t args data k = expectedStore t args data 0 k := by
  intro k
  induction k with
  | zero => intro _; rfl
  | succ n ih =>
    intro hk
    have hkn : n + 1 ≤ 500 := hk
    have hn := ih (Nat.le_of_succ_le hk)
    have hfresh : ∀ p ∈ expectedStore t args data 0 n,
        p.1 ≠ makeKey "p" DataCategory.quote (args n) :=
      expectedStore_key_ne hinj (by omega) (by omega) (by omega)
    show cacheSet (t n) "p" .quote (args n) data (cacheSetSeq t args data n) = _
    rw [hn, cacheSet_quote_eq, jsMapSet_fresh hfresh]
    show evictIfNeeded (t n)
        (expectedStore t args data 0 n ++ [seqEntry t args data n])
      = expectedStore t args data 0 (n + 1)
    rw [expectedStore_concat t args data 0 n n (by omega)]
    exact evictIfNeeded_no_evict (by rw [expectedStore_length]; exact hkn)

/-- The 501st insertion triggers eviction: no entry is expired (all 501
were inserted within one TTL window), the store is already sorted by
expiry, so exactly the earliest-expiring (first-inserted) entry is
removed. -/
theorem cacheSetSeq_501 {t : ℕ → ℚ} {args : ℕ → Obj} {data : Value}
    (hinj : ∀ i j, i ≤ 500 → j ≤ 500 → seqKey args i = seqKey args j → i = j)
    (hmono : ∀ i j, i < j → j ≤ 500 → t i < t j)
    (hwin : t 500 < t 0 + 30000) :
    cacheSetSeq t args data 501 = expectedStore t args data 1 500 := by
  have ht0 : ∀ i, i ≤ 500 → t 0 ≤ t i := by
    intro i hi
    rcases Nat.eq_zero_or_pos i with h0 | h0
    · rw [h0]
    · exact (hmono 0 i h0 hi).le
  have h500 : cacheSetSeq t args data 500 = expectedStore t args data 0 500 :=
    cacheSetSeq_shape hinj 500 (le_refl _)
  have hfresh : ∀ p ∈ expectedStore t args data 0 500,
      p.1 ≠ makeKey "p" DataCategory.quote (args 500) :=
    expectedStore_key_ne hinj (by omega) (by omega) (by omega)
  show cacheSet (t 500) "p" .quote (args 500) data (cacheSetSeq t args data 500) = _
  rw [h500, cacheSet_quote_eq, jsMapSet_fresh hfresh]
  show evictIfNeeded (t 500)
      (expectedStore t args data 0 500 ++ [seqEntry t args data 500])
    = expectedStore t args data 1 500
  rw [expectedStore_concat t args data 0 500 500 (by omega)]
  have hlen : (expectedStore t args data 0 501).length = 501 :=
    expectedStore_length t args data 0 501
  unfold evictIfNeeded
  rw [if_neg (by rw [hlen]; norm_num [MAX_ENTRIES])]
  have hfilter : (expectedStore t args data 0 501).filter
      (fun p => !(expiryLe p.2.expiresAt (t 500))) = expectedStore t args data 0 501 := by
    apply List.filter_eq_self.mpr
    intro p hp
    obtain ⟨i, hi, rfl⟩ := mem_expectedStore.mp hp
    show (!(expiryLe (Expiry.ts (t i + 30000)) (t 500))) = true
    have hile : t 0 ≤ t i := ht0 i (by omega)
    have : ¬ (t i + 30000 ≤ t 500) := by linarith
    simp [expiryLe, this]
  rw [hfilter]
  unfold evictSurplus
  rw [if_neg (by rw [hlen]; norm_num [MAX_ENTRIES])]
  have hsorted : (expectedStore t args data 0 501).insertionSort
      (fun a b => expiryLeB a.2.expiresAt b.2.expiresAt = true)
      = expectedStore t args data 0 501 := by
    apply List.Sorted.insertionSort_eq
    unfold expectedStore List.Sorted
    rw [List.pairwise_map]
    refine (List.pairwise_lt_range' 0 501 1 ?_).imp_of_mem ?_
    · norm_num
    · intro i j hi hj hij
      have hj500 : j ≤ 500 := by
        have := (List.mem_range'_1.mp hj).2
        omega
      show expiryLeB (Expiry.ts (t i + 30000)) (Expiry.ts (t j + 30000)) = true
      have : t i + 30000 ≤ t j + 30000 := by
        have := hmono i j hij hj500
        linarith
      simp [expiryLeB, this]
  rw [hsorted, hlen]
  have htake1 : (501 : ℕ) - MAX_ENTRIES = 1 := by norm_num [MAX_ENTRIES]
  rw [htake1, expectedStore_cons t args data 0 500, List.take_succ_cons, List.take_zero]
  rw [List.filter_cons_of_neg (by simp)]
  apply List.filter_eq_self.mpr
  intro p hp
  obtain ⟨i, hi, rfl⟩ := mem_expectedStore.mp hp
  have hne : seqKey args 0 ≠ seqKey args i := by
    intro he
    have : (0 : ℕ) = i := hinj 0 i (by omega) (by omega) he
    omega
  show (!([seqEntry t args data 0].any
    (fun q => q.1 == (seqEntry t args data i).1))) = true
  simp only [List.any_cons, List.any_nil, Bool.or_false, seqEntry]
  simp [hne]

/-- Looking up the key of insertion `j` in the block `lo..lo+n-1` finds
entry `j` when `j` lies in the block. -/
theorem lookup_expectedStore_some {t : ℕ → ℚ} {args : ℕ → Obj} {data : Value}
    (hinj : ∀ i j, i ≤ 500 → j ≤ 500 → seqKey args i = seqKey args j → i = j) :
    ∀ (n lo j : ℕ), lo + n ≤ 501 → lo ≤ j → j < lo + n → j ≤ 500 →
      (expectedStore t args data lo n).lookup (seqKey args j)
        = some { data := data, expiresAt := .ts (t j + 30000) } := by
  intro n
  induction n with
  | zero => intro lo j _ h1 h2 _; omega
  | succ m ih =>
    intro lo j hbound hlo hhi hj
    rw [expectedStore_cons]
    by_cases hb : j = lo
    · subst hb
      show List.lookup (seqKey args j) ((seqKey args j, _) :: _) = _
      simp [List.lookup_cons]
    · have hkey : (seqKey args j == seqKey args lo) = false := by
        rw [beq_eq_false_iff_ne]
        intro he
        exact hb (hinj j lo hj (by omega) he)
      show List.lookup (seqKey args j) ((seqKey args lo, _) :: _) = _
      rw [List.lookup_cons]
      simp only [hkey]
      exact ih (lo + 1) j (by omega) (by omega) (by omega) hj

/-- Looking up the key of insertion `0` in the block `1..500` misses. -/
theorem lookup_expectedStore_none {t : ℕ → ℚ} {args : ℕ → Obj} {data : Value}
    (hinj : ∀ i j, i ≤ 500 → j ≤ 500 → seqKey args i = seqKey args j → i = j) :
    (expectedStore t args data 1 500).lookup (seqKey args 0) = none := by
  rw [List.lookup_eq_none_iff]
  intro p hp
  obtain ⟨i, hi, rfl⟩ := mem_expectedStore.mp hp
  have hne : seqKey args 0 ≠ seqKey args i := by
    intro he
    have : (0 : ℕ) = i := hinj 0 i (by omega) (by omega) he
    omega
  show (seqKey args 0 != (seqEntry t args data i).1) = true
  simp only [seqEntry, bne_iff_ne, ne_eq]
  exact hne

theorem joinRep_length (n : ℕ) :
    ∀ s : String,
      (List.foldl (fun r t => r ++ t) s (List.replicate n "a")).length
        = s.length + n := by
  induction n with
  | zero => intro s; simp
  | succ m ih =>
    intro s
    rw [List.replicate_succ, List.foldl_cons, ih, String.length_append]
    have h1 : ("a" : String).length = 1 := rfl
    omega

/-- The cache key of the i-th C6 witness insertion has length `12 + i`:
`p:quote:s="a…a"` with `i` repetitions of `a`. -/
theorem c6Key_length (i : ℕ) : (seqKey c6Args i).length = 12 + i := by
  have hsingle : ∀ x : String, String.intercalate "&" [x] = x := fun x => rfl
  have hJ : (String.join ((List.replicate i 'a').map jsonEscapeChar)).length = i := by
    have hesc : jsonEscapeChar 'a' = "a" := rfl
    rw [List.map_replicate, hesc]
    show (List.foldl (fun r t => r ++ t) "" (List.replicate i "a")).length = i
    rw [joinRep_length]
    simp
  show ("p" ++ ":" ++ "quote" ++ ":" ++ String.intercalate "&"
      ["s" ++ "=" ++ ("\"" ++ String.join
        ((List.replicate i 'a').map jsonEscapeChar) ++ "\"")]).length
    = 12 + i
  rw [hsingle]
  simp only [String.length_append]
  rw [hJ]
  have h1 : ("p" : String).length = 1 := rfl
  have h2 : (":" : String).length = 1 := rfl
  have h3 : ("quote" : String).length = 5 := rfl
  have h4 : ("s" : String).length = 1 := rfl
  have h5 : ("=" : String).length = 1 := rfl
  have h6 : ("\"" : String).length = 1 := rfl
  omega

/-- The 501 keys of the C6 witness are pairwise distinct. -/
theorem c6Args_inj : ∀ i j, i ≤ 500 → j ≤ 500 →
    seqKey c6Args i = seqKey c6Args j → i = j := by
  intro i j _ _ he
  have hl := congrArg String.length he
  rw [c6Key_length, c6Key_length] at hl
  omega

/-- C6 (`invariants`): after every `cache.set` the store holds at most
`MAX_ENTRIES` (500) entries; on overflow, eviction deletes already
expired entries first and then the surplus in ascending `expiresAt`
order.  In particular 501 insertions at strictly increasing timestamps
within one TTL window leave exactly 500 entries, evict the
earliest-expiring (first) entry, and keep the most recently inserted
entry retrievable. -/
theorem cache_eviction_bounded :
    (∀ (now : ℚ) (provider : String) (category : DataCategory) (args : Obj)
       (data : Value) (store : Store),
       cacheSize (cacheSet now provider category args data store) ≤ MAX_ENTRIES)
    ∧ (∀ (t : ℕ → ℚ) (args : ℕ → Obj) (data : Value),
       (∀ i j, i ≤ 500 → j ≤ 500 → seqKey args i = seqKey args j → i = j) →
       (∀ i j, i < j → j ≤ 500 → t i < t j) →
       t 500 < t 0 + 30000 →
       cacheSize (cacheSetSeq t args data 501) = 500
       ∧ (cacheGet (t 500) "p" .quote (args 0) (cacheSetSeq t args data 501)).1
           = none
       ∧ (cacheGet (t 500) "p" .quote (args 500) (cacheSetSeq t args data 501)).1
           = some data) := by
  constructor
  · intro now provider category args data store
    exact evictIfNeeded_length_le now _
  · intro t args data hinj hmono hwin
    have h501 : cacheSetSeq t args data 501 = expectedStore t args data 1 500 :=
      cacheSetSeq_501 hinj hmono hwin
    refine ⟨?_, ?_, ?_⟩
    · rw [h501]
      exact expectedStore_length t args data 1 500
    · rw [h501]
      have hnone : (expectedStore t args data 1 500).lookup
          (makeKey "p" DataCategory.quote (args 0)) = none :=
        lookup_expectedStore_none hinj
      simp only [cacheGet, hnone]
    · rw [h501]
      have hsome : (expectedStore t args data 1 500).lookup
          (makeKey "p" DataCategory.quote (args 500))
          = some { data := data, expiresAt := .ts (t 500 + 30000) } :=
        lookup_expectedStore_some hinj 500 1 500 (by omega) (by omega)
          (by omega) (by omega)
      have hexp : expiryLe (.ts (t 500 + 30000)) (t 500) = false := by
        simp only [expiryLe, decide_eq_false_iff_not]
        linarith
      simp only [cacheGet, hsome, hexp, if_neg Bool.false_ne_true]

/-- Witness for C6: 501 insertions at times `0, 1, …, 500` ms with
argument objects `{s: "a"^i}`, whose keys are pairwise distinct. -/
theorem cache_eviction_bounded_witness :
    cacheSize (cacheSetSeq (fun i => (i : ℚ)) c6Args (.vStr "v") 501) = 500
    ∧ (cacheGet ((500 : ℕ) : ℚ) "p" .quote (c6Args 0)
        (cacheSetSeq (fun i => (i : ℚ)) c6Args (.vStr "v") 501)).1 = none
    ∧ (cacheGet ((500 : ℕ) : ℚ) "p" .quote (c6Args 500)
        (cacheSetSeq (fun i => (i : ℚ)) c6Args (.vStr "v") 501)).1
        = some (.vStr "v") :=
  cache_eviction_bounded.2 (fun i => (i : ℚ)) c6Args (.vStr "v")
    c6Args_inj
    (fun i j hij _ => by show ((i : ℚ) < (j : ℚ)); exact_mod_cast hij)
    (by norm_num)

end CacheTheorems

section RouterTheorems

/-- C1 (`error_handling`), counterexample: the code does not distinguish
the two no-candidate cases.  A registry whose only `quote`-capable
provider is disabled produces exactly the same `noProviders` rejection as
an empty registry — the generic message, with no per-provider reasons. -/
theorem no_candidate_diagnostics_counterexample :
    route 0 [pDisabled] [] [] .quote "get" [] { source := none, noCache := false } []
      = .error (.noProviders .quote)
    ∧ route 0 [] [] [] .quote "get" [] { source := none, noCache := false } []
      = .error (.noProviders .quote)
    ∧ (RouteError.noProviders .quote).message
      = "No providers available for category \"quote\"" := by
  refine ⟨?_, ?_, ?_⟩
  · with_unfolding_all rfl
  · with_unfolding_all rfl
  · with_unfolding_all rfl

/-- C1 amended: whenever the candidate list is empty and no source was
forced (and the cache scan missed), `route` rejects with the single
generic `noProviders` error — whether zero capable providers are
registered or all of them are disabled/unconfigured; no per-provider
enumeration takes place. -/
theorem route_no_candidates_generic :
    ∀ (now : ℚ) (providers : List Provider) (disabled : List String)
      (buckets : BucketMap) (category : DataCategory) (action : String)
      (args : Obj) (store store1 : Store),
      firstCacheHit now category (routeCacheKey action args) providers store = (none, store1) →
      getProvidersForCategory now buckets disabled providers category = [] →
      route now providers disabled buckets category action args
          { source := none, noCache := false } store
        = .error (.noProviders category) := by
  intro now providers disabled buckets category action args store store1 hscan hcand
  unfold route
  simp only [hscan, hcand]
  rfl

/-- Witness for the amended C1 at the disabled-provider registry. -/
theorem route_no_candidates_generic_witness :
    route 0 [pDisabled] [] [] .quote "search" [] { source := none, noCache := false } []
      = .error (.noProviders .quote) :=
  route_no_candidates_generic 0 [pDisabled] [] [] .quote "search" [] [] []
    (by with_unfolding_all rfl) (by with_unfolding_all rfl)

/-- C2 (`functional_correctness`), counterexample: the cache-check scan
is *not* capability-filtered.  With a single registered provider whose
`capabilities` are empty, an unexpired cache entry stored under its name
is consulted and returned tagged `cached:true`. -/
theorem cache_scan_ignores_capability_counterexample :
    pNoCap.capabilities = []
    ∧ route 0 [pNoCap] [] [] .quote "get" [("s", .vStr "A")]
        { source := none, noCache := false } c2Store
      = .ok ({ data := .vStr "v", source := "x", cached := true }, c2Store, []) := by
  exact ⟨rfl, by with_unfolding_all rfl⟩

/-- C2 amended: with no forced source and `noCache` unset, the cache-check
step scans the cache entries of *every* registered provider, in the order
the provider list is held (not only those whose capabilities include the
category), and `route` returns the first truthy hit tagged `cached:true`
without running any provider. -/
theorem route_cache_scan_all_providers :
    ∀ (now : ℚ) (providers : List Provider) (disabled : List String)
      (buckets : BucketMap) (category : DataCategory) (action : String)
      (args : Obj) (store st : Store) (n : String) (v : Value),
      firstCacheHit now category (routeCacheKey action args) providers store
        = (some (n, v), st) →
      route now providers disabled buckets category action args
          { source := none, noCache := false } store
        = .ok ({ data := v, source := n, cached := true }, st, []) := by
  intro now providers disabled buckets category action args store st n v hscan
  unfold route
  simp only [hscan]
  rfl

/-- Witness for the amended C2: two providers, the first without the
capability; the scan returns the first provider's entry. -/
theorem route_cache_scan_all_providers_witness :
    route 0 [pNoCap, pCap] [] [] .quote "get" [("s", .vStr "A")]
        { source := none, noCache := false } c2Store
      = .ok ({ data := .vStr "v", source := "x", cached := true }, c2Store, []) :=
  route_cache_scan_all_providers 0 [pNoCap, pCap] [] [] .quote "get"
    [("s", .vStr "A")] c2Store c2Store "x" (.vStr "v") (by with_unfolding_all rfl)

/-- The fallback loop on a failing prefix followed by a succeeding
provider: every prefix failure is recorded and the loop stops at the
first success, writing the cache unless `noCache`. -/
theorem tryProviders_first_success (now : ℚ) (noCache : Bool)
    (category : DataCategory) (action : String) (args : Obj) :
    ∀ (pre : List Provider) (p : Provider) (post : List Provider)
      (store : Store) (r : ProviderResult) (em : Provider → String),
      (∀ q ∈ pre, q.execute category action args = .error (em q)) →
      p.execute category action args = .ok r →
      tryProviders now noCache category action args (pre ++ p :: post) store
        = (pre.map (fun q => q.name) ++ [p.name], pre.map em,
           some (r, if noCache then store
                    else cacheSet now p.name category (routeCacheKey action args) r.data store)) := by
  intro pre
  induction pre with
  | nil =>
    intro p post store r em _ hp
    simp only [List.nil_append, tryProviders, hp, List.map_nil]
  | cons q pre ih =>
    intro p post store r em hpre hp
    have hq : q.execute category action args = .error (em q) :=
      hpre q (List.mem_cons_self q pre)
    have hrest := ih p post store r em (fun x hx => hpre x (List.mem_cons_of_mem q hx)) hp
    simp only [List.cons_append, tryProviders, hq, List.append_eq, hrest, List.map_cons]

/-- The fallback loop when every candidate fails: all names and all error
messages are recorded in order, and no result is produced. -/
theorem tryProviders_all_fail (now : ℚ) (noCache : Bool)
    (category : DataCategory) (action : String) (args : Obj) :
    ∀ (cands : List Provider) (store : Store) (em : Provider → String),
      (∀ q ∈ cands, q.execute category action args = .error (em q)) →
      tryProviders now noCache category action args cands store
        = (cands.map (fun q => q.name), cands.map em, none) := by
  intro cands
  induction cands with
  | nil => intro store em _; rfl
  | cons q cs ih =>
    intro store em hall
    have hq : q.execute category action args = .error (em q) :=
      hall q (List.mem_cons_self q cs)
    have hrest := ih store em (fun x hx => hall x (List.mem_cons_of_mem q hx))
    simp only [tryProviders, hq, hrest, List.map_cons]

/-- C8 (`error_handling`): on a cache miss `route` walks the sorted
candidates in order; the first success is cached under that provider's
name and returned at once (later candidates untouched), earlier failures
are recorded, and if every candidate fails `route` rejects with the
aggregate error naming every attempted source in order together with the
last underlying failure message. -/
theorem route_sequential_fallback :
    (∀ (now : ℚ) (providers : List Provider) (disabled : List String)
       (buckets : BucketMap) (category : DataCategory) (action : String)
       (args : Obj) (store store1 : Store) (pre : List Provider) (p : Provider)
       (post : List Provider) (r : ProviderResult),
       firstCacheHit now category (routeCacheKey action args) providers store = (none, store1) →
       getProvidersForCategory now buckets disabled providers category = pre ++ p :: post →
       (∀ q ∈ pre, ∃ e, q.execute category action args = .error e) →
       p.execute category action args = .ok r →
       route now providers disabled buckets category action args
           { source := none, noCache := false } store
         = .ok (r, cacheSet now p.name category (routeCacheKey action args) r.data store1,
                pre.map (fun q => q.name) ++ [p.name]))
    ∧ (∀ (now : ℚ) (providers : List Provider) (disabled : List String)
       (buckets : BucketMap) (category : DataCategory) (action : String)
       (args : Obj) (store store1 : Store) (cands : List Provider)
       (em : Provider → String),
       firstCacheHit now category (routeCacheKey action args) providers store = (none, store1) →
       getProvidersForCategory now buckets disabled providers category = cands →
       cands ≠ [] →
       (∀ q ∈ cands, q.execute category action args = .error (em q)) →
       route now providers disabled buckets category action args
           { source := none, noCache := false } store
         = .error (.allFailed category action (cands.map (fun q => q.name))
             ((cands.map em).getLast?))) := by
  constructor
  · intro now providers disabled buckets category action args store store1 pre p post r
      hscan hcand hpre hp
    classical
    let em : Provider → String := fun q =>
      if h : ∃ e, q.execute category action args = .error e then h.choose else ""
    have hpre' : ∀ q ∈ pre, q.execute category action args = .error (em q) := by
      intro q hq
      obtain ⟨e, he⟩ := hpre q hq
      have hex : ∃ e, q.execute category action args = .error e := ⟨e, he⟩
      simpa [em, hex] using hex.choose_spec
    have htry := tryProviders_first_success now false category action args pre p post
      store1 r em hpre' hp
    unfold route
    have hne : ((pre ++ p :: post).isEmpty) = false := by
      cases pre <;> rfl
    simp only [hscan, hcand, if_neg Bool.false_ne_true, hne]
    simp only [finishRoute, htry, if_neg Bool.false_ne_true]
  · intro now providers disabled buckets category action args store store1 cands em
      hscan hcand hne hall
    have htry := tryProviders_all_fail now false category action args cands store1 em hall
    unfold route
    have hne' : cands.isEmpty = false := by
      cases cands with
      | nil => exact absurd rfl hne
      | cons a l => rfl
    simp only [hscan, hcand, if_neg Bool.false_ne_true, hne']
    simp only [finishRoute, htry]

/-- Witness for C8: provider `a` (priority 1) always fails and `b`
(priority 2) always succeeds, so `route` returns `b`'s result after
trying both; with `a` and `c` both failing, `route` rejects with the
aggregate error listing both sources and the last message. -/
theorem route_sequential_fallback_witness :
    route 0 [pFail, pOk] [] [] .quote "get" [] { source := none, noCache := false } []
      = .ok (okResult, cacheSet 0 "b" .quote (routeCacheKey "get" []) okResult.data [], ["a", "b"])
    ∧ route 0 [pFail, pFail2] [] [] .quote "get" [] { source := none, noCache := false } []
      = .error (.allFailed .quote "get" ["a", "c"] (some "fail-2")) := by
  constructor
  · have h := route_sequential_fallback.1 0 [pFail, pOk] [] [] .quote "get" [] [] []
      [pFail] pOk [] okResult (by with_unfolding_all rfl) (by with_unfolding_all rfl)
      (by intro q hq; rw [List.mem_singleton.mp hq]; exact ⟨"fail-1", rfl⟩) rfl
    exact h.trans (by with_unfolding_all rfl)
  · have h := route_sequential_fallback.2 0 [pFail, pFail2] [] [] .quote "get" [] [] []
      [pFail, pFail2] emW (by with_unfolding_all rfl) (by with_unfolding_all rfl)
      (by simp) ?_
    · exact h.trans (by with_unfolding_all rfl)
    · intro q hq
      rcases List.mem_cons.mp hq with h1 | h1
      · rw [h1]; rfl
      · rw [List.mem_singleton.mp h1]; rfl

/-- C10 (`functional_correctness`): the cache-check step tests the
retrieved value for truthiness, so a cached falsy payload is never served
from the cache: any hit the scan returns is truthy, and in the concrete
scenario a provider succeeding with `false` is executed again on an
identical repeat call even though its unexpired entry is in the store. -/
theorem falsy_cache_never_served :
    (∀ (now : ℚ) (category : DataCategory) (key : Obj) (ps : List Provider)
       (store st : Store) (n : String) (v : Value),
       firstCacheHit now category key ps store = (some (n, v), st) → truthy v = true)
    ∧ route 0 [pFalsy] [] [] .quote "get" [] { source := none, noCache := false } []
      = .ok (falsyResult, falsyStore, ["f"])
    ∧ (cacheGet 0 "f" .quote (routeCacheKey "get" []) falsyStore).1 = some (.vBool false)
    ∧ route 0 [pFalsy] [] [] .quote "get" [] { source := none, noCache := false } falsyStore
      = .ok (falsyResult, falsyStore, ["f"]) := by
  refine ⟨?_, ?_, ?_, ?_⟩
  · intro now category key ps
    induction ps with
    | nil =>
      intro store st n v h
      rw [firstCacheHit] at h
      exact absurd (congrArg Prod.fst h) (by simp)
    | cons p ps ih =>
      intro store st n v h
      rw [firstCacheHit] at h
      rcases hget : cacheGet now p.name category key store with ⟨d, store1⟩
      rw [hget] at h
      cases d with
      | none =>
        dsimp only at h
        exact ih store1 st n v h
      | some w =>
        dsimp only at h
        by_cases hw : truthy w = true
        · rw [if_pos hw] at h
          have h1 : some (p.name, w) = some (n, v) := congrArg Prod.fst h
          simp only [Option.some.injEq, Prod.mk.injEq] at h1
          rw [← h1.2]
          exact hw
        · rw [if_neg hw] at h
          exact ih store1 st n v h
  · with_unfolding_all rfl
  · with_unfolding_all rfl
  · with_unfolding_all rfl

/-- Witness for C10's general part: a concrete scan that does produce a
hit yields a truthy value. -/
theorem falsy_cache_never_served_witness : truthy (.vStr "v") = true :=
  falsy_cache_never_served.1 0 .quote (routeCacheKey "get" [("s", .vStr "A")])
    [pNoCap] c2Store c2Store "x" (.vStr "v") (by with_unfolding_all rfl)

end RouterTheorems

end OMD
